import Mathlib

/-!
Verification development for the `openx` execution-policy engine
(`openx-rs/execpolicy`): the data model, the command matcher, the
sed-safety analyzer and the policy parser, together with theorems about
the behaviour exercised by the repository's test suite.

The execpolicy library sources are not shipped in this tree (only the
crate's test suite is), so the engine definitions below are modelled
from the design specification, constrained to reproduce the concrete
inputs and outputs pinned down by the tests in
`openx-rs/execpolicy/tests/suite/sed.rs` and
`openx-rs/execpolicy/tests/suite/literal.rs`.
-/

namespace ExecPolicy

/-- Modelled from the spec: `ArgType` is a closed tagged union — `Literal
(expected-string)`, `ReadableFile`, `SedCommand`. -/
inductive ArgType where
  | Literal (value : String)
  | ReadableFile
  | SedCommand
deriving DecidableEq, Repr

/-- Modelled from the spec: an option spec is a name, a required `ArgType`
for the value, and a required/optional marker. -/
structure OptSpec where
  name : String
  argType : ArgType
  required : Bool
deriving DecidableEq, Repr

/-- Modelled from the spec: a `ProgramDefinition` — program name, ordered
positional argument specs, flag names (value-less), option specs, and the
absolute binary locations resolved at policy-load time. -/
structure ProgramSpec where
  program : String
  flags : List String
  options : List OptSpec
  argSpecs : List ArgType
  system_path : List String
deriving DecidableEq, Repr

/-- Modelled from the spec: `ExecCall` is a candidate program name plus an
ordered sequence of argument tokens. -/
structure ExecCall where
  program : String
  args : List String
deriving DecidableEq, Repr

/-- Mirrors `ExecCall::new(program, args)` from the test suite. -/
def ExecCall.new (program : String) (args : List String) : ExecCall :=
  ⟨program, args⟩

/-- Modelled from the spec: a matched value-less flag. -/
structure MatchedFlag where
  name : String
deriving DecidableEq, Repr

/-- Modelled from the spec: a matched option — name, value, resolved type
(field order mirrors `MatchedOpt::new("-e", "122,202p", ArgType::SedCommand)`
in the test suite). -/
structure MatchedOpt where
  name : String
  value : String
  argType : ArgType
deriving DecidableEq, Repr

/-- Modelled from the spec: a matched positional — position in the call's
argument vector, resolved type, value (field order mirrors
`MatchedArg::new(1, ArgType::SedCommand, "122,202p")` in the test suite). -/
structure MatchedArg where
  position : Nat
  argType : ArgType
  value : String
deriving DecidableEq, Repr

/-- Modelled from the spec: `ValidExec` — program name, ordered `flags`,
`opts`, `args` vectors in left-to-right call order, and `system_path`. -/
structure ValidExec where
  program : String
  flags : List MatchedFlag := []
  opts : List MatchedOpt := []
  args : List MatchedArg := []
  system_path : List String := []
deriving DecidableEq, Repr

/-- Mirrors `ValidExec::new(program, args, system_path)` from the test
suite: flags and opts default to empty. -/
def ValidExec.new (program : String) (args : List MatchedArg)
    (system_path : List String) : ValidExec :=
  { program := program, args := args, system_path := system_path }

/-- Modelled from the spec: the outcome wrapper; `Match(ValidExec)` is the
success variant. -/
inductive MatchedExec where
  | Match (exec : ValidExec)
deriving DecidableEq, Repr

/-- Modelled from the spec (§7): the typed rejection family. The names
`LiteralValueDidNotMatch`, `SedCommandNotProvablySafe` and
`MissingRequiredOptions` and their payloads are pinned by the test suite;
the structural variants are modelled from the spec's error taxonomy. -/
inductive Error where
  | ProgramNotRecognized (program : String)
  | OptionMissingValue (program : String) (option : String)
  | LiteralValueDidNotMatch (expected : String) (actual : String)
  | SedCommandNotProvablySafe (command : String)
  | MissingRequiredOptions (program : String) (options : List String)
  | NotEnoughArgs (program : String)
  | UnexpectedArgs (program : String)
deriving DecidableEq, Repr

/-! ## Sed-safety analyzer -/

/-- Decimal digit test used by the sed address grammar. -/
def isSedDigit (c : Char) : Bool := '0' ≤ c && c ≤ '9'

/-- Modelled from the spec: an address chunk is a non-empty run of digits. -/
def isAddrChunk (cs : List Char) : Bool := !cs.isEmpty && cs.all isSedDigit

/-- Split a character list on commas (the address-range separator). -/
def splitComma : List Char → List (List Char)
  | [] => [[]]
  | c :: cs =>
    if c = ',' then [] :: splitComma cs
    else
      match splitComma cs with
      | [] => [[c]]
      | p :: ps => (c :: p) :: ps

/-- Modelled from the spec: an optional address or address range,
`<addr>[,<addr>]`, possibly empty. -/
def isAddrRange (cs : List Char) : Bool :=
  match splitComma cs with
  | [a] => a.isEmpty || isAddrChunk a
  | [a, b] => isAddrChunk a && isAddrChunk b
  | _ => false

/-- Modelled from the spec: the only safe verbs are `p` (print) and `d`
(delete); in particular `e` (execute shell text) is not safe. -/
def isSafeVerb (c : Char) : Bool := c == 'p' || c == 'd'

/-- Modelled from the spec: the conservative sed subset — an optional
address range followed by a single safe verb, `<addr>[,<addr>](p|d)`.
Anything the analyzer cannot positively classify is unsafe. -/
def sedScriptSafe (cs : List Char) : Bool :=
  match cs.getLast? with
  | some v => isSafeVerb v && isAddrRange cs.dropLast
  | none => false

/-- Modelled from the spec: the sed-safety analyzer entry point. -/
def isSedCommandSafe (s : String) : Bool := sedScriptSafe s.data

/-! ## Token-against-type validation -/

/-- Modelled from the spec: validate a single token against a declared
`ArgType`. A `Literal` requires exact, case-sensitive equality and reports
`LiteralValueDidNotMatch`; a `SedCommand` must pass the sed-safety
analyzer, else `SedCommandNotProvablySafe`; a `ReadableFile` is a path
plausibility check with no content inspection (the test suite accepts
arbitrary path tokens, so it accepts every token here). -/
def checkValue : ArgType → String → Except Error Unit
  | .Literal expected, actual =>
    if actual = expected then .ok ()
    else .error (.LiteralValueDidNotMatch expected actual)
  | .ReadableFile, _ => .ok ()
  | .SedCommand, s =>
    if isSedCommandSafe s then .ok ()
    else .error (.SedCommandNotProvablySafe s)

/-! ## Command matcher -/

/-- Look up an option spec by its name. -/
def findOpt (rule : ProgramSpec) (tok : String) : Option OptSpec :=
  rule.options.find? (fun o => o.name == tok)

/-- Modelled from the spec (§4.2 step 2): scan the argument tokens left to
right, classifying each as a flag (exact name match, consumes no value),
an option (name match, value taken from the next token and validated
against the declared type), or a positional token recorded with its
0-based index in the call's argument vector. -/
def scanTokens (rule : ProgramSpec) :
    List String → Nat →
    Except Error (List MatchedFlag × List MatchedOpt × List (Nat × String))
  | [], _ => .ok ([], [], [])
  | tok :: rest, i =>
    if rule.flags.contains tok then
      match scanTokens rule rest (i + 1) with
      | .error e => .error e
      | .ok (fs, os, ps) => .ok (⟨tok⟩ :: fs, os, ps)
    else
      match findOpt rule tok with
      | some o =>
        match rest with
        | [] => .error (.OptionMissingValue rule.program tok)
        | v :: rest2 =>
          match checkValue o.argType v with
          | .error e => .error e
          | .ok _ =>
            match scanTokens rule rest2 (i + 2) with
            | .error e => .error e
            | .ok (fs, os, ps) => .ok (fs, ⟨tok, v, o.argType⟩ :: os, ps)
      | none =>
        match scanTokens rule rest (i + 1) with
        | .error e => .error e
        | .ok (fs, os, ps) => .ok (fs, os, (i, tok) :: ps)

/-- A positional spec can alternatively be supplied through an option of
the same type (the spec's "equivalent argument", e.g. sed's script via
`-e`). -/
def optFillable (rule : ProgramSpec) (ty : ArgType) : Bool :=
  rule.options.any (fun o => o.argType == ty)

/-- Modelled from the spec: when fewer positional tokens than positional
specs are supplied, leading specs that are fillable through an option are
skipped so that the remaining specs line up 1:1 with the tokens. -/
def dropFillable (rule : ProgramSpec) : Nat → List ArgType → Option (List ArgType)
  | 0, specs => some specs
  | _ + 1, [] => none
  | k + 1, ty :: specs =>
    if optFillable rule ty then dropFillable rule k specs else none

/-- Pair the remaining positional specs with the positional tokens by
strict index correspondence; fails if the counts differ. -/
def zipSpecs : List ArgType → List (Nat × String) → Option (List MatchedArg)
  | [], [] => some []
  | ty :: specs, (i, v) :: ps =>
    match zipSpecs specs ps with
    | some rest => some (⟨i, ty, v⟩ :: rest)
    | none => none
  | _, _ => none

/-- Validate every matched positional against its assigned type, in call
order, surfacing the first typed rejection. -/
def checkArgs : List MatchedArg → Except Error Unit
  | [] => .ok ()
  | a :: rest =>
    match checkValue a.argType a.value with
    | .error e => .error e
    | .ok _ => checkArgs rest

/-- Modelled from the spec: a required option is satisfied when it
appeared as an option, or when an equivalent argument — a matched
positional of the option's type — is present. -/
def optSatisfied (o : OptSpec) (os : List MatchedOpt)
    (matchedArgs : List MatchedArg) : Bool :=
  os.any (fun m => m.name == o.name)
    || matchedArgs.any (fun a => a.argType == o.argType)

/-- Modelled from the spec (§4.2 step 5): the names of every option spec
marked required that is not satisfied, in declaration order. -/
def missingRequired (rule : ProgramSpec) (os : List MatchedOpt)
    (matchedArgs : List MatchedArg) : List String :=
  (rule.options.filter (fun o => o.required && !optSatisfied o os matchedArgs)).map
    (fun o => o.name)

/-- Modelled from the spec (§4.2): match a call against one program rule —
scan the tokens, line the positional tokens up with the positional specs,
validate each positional, then enforce required options, producing
`Match(ValidExec)` on success. -/
def checkRule (rule : ProgramSpec) (call : ExecCall) : Except Error MatchedExec :=
  match scanTokens rule call.args 0 with
  | .error e => .error e
  | .ok (fs, os, ps) =>
    match dropFillable rule (rule.argSpecs.length - ps.length) rule.argSpecs with
    | none => .error (.NotEnoughArgs rule.program)
    | some specs =>
      match zipSpecs specs ps with
      | none => .error (.UnexpectedArgs rule.program)
      | some matchedArgs =>
        match checkArgs matchedArgs with
        | .error e => .error e
        | .ok _ =>
          match missingRequired rule os matchedArgs with
          | [] => .ok (.Match
              { program := rule.program
                flags := fs
                opts := os
                args := matchedArgs
                system_path := rule.system_path })
          | missing => .error (.MissingRequiredOptions rule.program missing)

/-- Modelled from the spec: `Policy` is an immutable mapping from program
name to program definition. -/
structure Policy where
  rules : List ProgramSpec
deriving DecidableEq, Repr

/-- Resolve a program name in the policy map. -/
def Policy.findRule (pol : Policy) (program : String) : Option ProgramSpec :=
  pol.rules.find? (fun r => r.program == program)

/-- Modelled from the spec (§4.2 step 1): `Policy::check` — resolve the
program, then match the call against its rule; an absent program is a
"program not recognized" error distinct from rule-level rejections. -/
def Policy.check (pol : Policy) (call : ExecCall) : Except Error MatchedExec :=
  match pol.findRule call.program with
  | none => .error (.ProgramNotRecognized call.program)
  | some rule => checkRule rule call

/-! ## Default policy -/

/-- Modelled from the spec and the sed test suite: the default policy's
`sed` rule — flag `-n`, required option `-e` carrying a `SedCommand`,
positionals sed-script-then-readable-file, binary resolved to
`/usr/bin/sed`. -/
def sedRule : ProgramSpec :=
  { program := "sed"
    flags := ["-n"]
    options := [{ name := "-e", argType := .SedCommand, required := true }]
    argSpecs := [.SedCommand, .ReadableFile]
    system_path := ["/usr/bin/sed"] }

/-- Modelled from the spec: the policy built from the embedded default
rule text. -/
def defaultPolicy : Policy := ⟨[sedRule]⟩

/-- Modelled from the spec: `get_default_policy()` surfaces the embedded
default policy as a typed result for testability. -/
def get_default_policy : Except Error Policy := .ok defaultPolicy

/-! ## Policy definition language and parser -/

/-- Modelled from the spec (§4.1): a position-annotated parse error,
carrying the policy name given as a diagnostics label and the offset of
the offending source location. -/
structure ParseError where
  policyName : String
  pos : Nat
  message : String
deriving DecidableEq, Repr

/-- Lexical tokens of the policy definition language. -/
inductive PToken where
  | ident (s : String)
  | strLit (s : String)
  | lparen
  | rparen
  | lbrack
  | rbrack
  | comma
  | eqSign
deriving DecidableEq, Repr

/-- Character classes of the policy definition language. -/
def isIdentStart (c : Char) : Bool := c.isAlpha || c == '_'

/-- Continuation characters of an identifier. -/
def isIdentCont (c : Char) : Bool := c.isAlphanum || c == '_'

/-- Whitespace characters skipped by the tokenizer. -/
def isSpaceChar (c : Char) : Bool :=
  c == ' ' || c == '\n' || c == '\t' || c == '\r'

/-- Take the longest prefix satisfying a predicate, returning it with the
remaining suffix. -/
def takeWhileChars (p : Char → Bool) : List Char → List Char × List Char
  | [] => ([], [])
  | c :: cs =>
    if p c then
      let r := takeWhileChars p cs
      (c :: r.1, r.2)
    else ([], c :: cs)

/-- Modelled from the spec: tokenizer for the policy source text, tracking
character offsets for diagnostics; the fuel argument bounds recursion and
is always initialized beyond the source length. -/
def tokenizeAux (pname : String) :
    Nat → List Char → Nat → Except ParseError (List (Nat × PToken))
  | 0, _, i => .error ⟨pname, i, "tokenizer fuel exhausted"⟩
  | _ + 1, [], _ => .ok []
  | fuel + 1, c :: cs, i =>
    if isSpaceChar c then tokenizeAux pname fuel cs (i + 1)
    else if c == '(' then
      (tokenizeAux pname fuel cs (i + 1)).map ((i, PToken.lparen) :: ·)
    else if c == ')' then
      (tokenizeAux pname fuel cs (i + 1)).map ((i, PToken.rparen) :: ·)
    else if c == '[' then
      (tokenizeAux pname fuel cs (i + 1)).map ((i, PToken.lbrack) :: ·)
    else if c == ']' then
      (tokenizeAux pname fuel cs (i + 1)).map ((i, PToken.rbrack) :: ·)
    else if c == ',' then
      (tokenizeAux pname fuel cs (i + 1)).map ((i, PToken.comma) :: ·)
    else if c == '=' then
      (tokenizeAux pname fuel cs (i + 1)).map ((i, PToken.eqSign) :: ·)
    else if c == '\"' then
      let r := takeWhileChars (fun d => !(d == '\"')) cs
      match r.2 with
      | '\"' :: rest =>
        (tokenizeAux pname fuel rest (i + r.1.length + 2)).map
          ((i, PToken.strLit (String.mk r.1)) :: ·)
      | _ => .error ⟨pname, i, "unterminated string"⟩
    else if isIdentStart c then
      let r := takeWhileChars isIdentCont cs
      (tokenizeAux pname fuel r.2 (i + r.1.length + 1)).map
        ((i, PToken.ident (String.mk (c :: r.1))) :: ·)
    else .error ⟨pname, i, "unexpected character"⟩

/-- Parsed values of the policy definition language: string literals, type
identifiers and lists, each carrying its source offset. -/
inductive PValue where
  | strLit (pos : Nat) (s : String)
  | ident (pos : Nat) (s : String)
  | list (pos : Nat) (items : List PValue)
deriving Repr

mutual

/-- Recursive-descent parse of one value. -/
def parseValueAux (pname : String) :
    Nat → List (Nat × PToken) → Except ParseError (PValue × List (Nat × PToken))
  | 0, _ => .error ⟨pname, 0, "value fuel exhausted"⟩
  | _ + 1, [] => .error ⟨pname, 0, "unexpected end of input"⟩
  | fuel + 1, (i, t) :: rest =>
    match t with
    | .strLit s => .ok (.strLit i s, rest)
    | .ident s => .ok (.ident i s, rest)
    | .lbrack =>
      match parseListItems pname fuel rest with
      | .ok (items, rest2) => .ok (.list i items, rest2)
      | .error e => .error e
    | _ => .error ⟨pname, i, "expected a value"⟩

/-- Recursive-descent parse of the items of a bracketed list. -/
def parseListItems (pname : String) :
    Nat → List (Nat × PToken) →
    Except ParseError (List PValue × List (Nat × PToken))
  | 0, _ => .error ⟨pname, 0, "list fuel exhausted"⟩
  | _ + 1, [] => .error ⟨pname, 0, "unexpected end of input in list"⟩
  | _ + 1, (_, PToken.rbrack) :: rest => .ok ([], rest)
  | fuel + 1, ts =>
    match parseValueAux pname fuel ts with
    | .error e => .error e
    | .ok (v, rest) =>
      match rest with
      | (_, PToken.comma) :: rest2 =>
        match parseListItems pname fuel rest2 with
        | .ok (items, rest3) => .ok (v :: items, rest3)
        | .error e => .error e
      | (_, PToken.rbrack) :: rest2 => .ok ([v], rest2)
      | (j, _) :: _ => .error ⟨pname, j, "expected comma or closing bracket"⟩
      | [] => .error ⟨pname, 0, "unexpected end of input in list"⟩

end

/-- Parse the `key=value` arguments of a `define_program` block up to and
including the closing parenthesis; a trailing comma is permitted. -/
def parseKwargs (pname : String) :
    Nat → List (Nat × PToken) →
    Except ParseError (List (Nat × String × PValue) × List (Nat × PToken))
  | 0, _ => .error ⟨pname, 0, "kwargs fuel exhausted"⟩
  | _ + 1, (_, PToken.rparen) :: rest => .ok ([], rest)
  | fuel + 1, (i, PToken.ident key) :: (_, PToken.eqSign) :: rest =>
    match parseValueAux pname fuel rest with
    | .error e => .error e
    | .ok (v, rest2) =>
      match rest2 with
      | (_, PToken.comma) :: rest3 =>
        match parseKwargs pname fuel rest3 with
        | .ok (kws, rest4) => .ok ((i, key, v) :: kws, rest4)
        | .error e => .error e
      | (_, PToken.rparen) :: rest3 => .ok ([(i, key, v)], rest3)
      | (j, _) :: _ => .error ⟨pname, j, "expected comma or closing paren"⟩
      | [] => .error ⟨pname, 0, "unexpected end of input"⟩
  | _ + 1, (j, _) :: _ => .error ⟨pname, j, "expected keyword argument"⟩
  | _ + 1, [] => .error ⟨pname, 0, "unexpected end of input"⟩

/-- Parse a sequence of `define_program(...)` blocks. -/
def parseBlocks (pname : String) :
    Nat → List (Nat × PToken) →
    Except ParseError (List (Nat × List (Nat × String × PValue)))
  | 0, _ => .error ⟨pname, 0, "blocks fuel exhausted"⟩
  | _ + 1, [] => .ok []
  | fuel + 1, (i, PToken.ident d) :: (_, PToken.lparen) :: rest =>
    if d = "define_program" then
      match parseKwargs pname fuel rest with
      | .error e => .error e
      | .ok (kws, rest2) =>
        match parseBlocks pname fuel rest2 with
        | .ok bs => .ok ((i, kws) :: bs)
        | .error e => .error e
    else .error ⟨pname, i, "expected define_program"⟩
  | _ + 1, (j, _) :: _ => .error ⟨pname, j, "expected define_program declaration"⟩

/-- Modelled from the spec: resolve a type value — a string literal is a
`Literal` spec, known type identifiers map to their variants, and unknown
type identifiers are rejected with a position-annotated error. -/
def argTypeOfValue (pname : String) : PValue → Except ParseError ArgType
  | .strLit _ s => .ok (.Literal s)
  | .ident i s =>
    if s = "ARG_SED_COMMAND" then .ok .SedCommand
    else if s = "ARG_READABLE_FILE" then .ok .ReadableFile
    else .error ⟨pname, i, "unknown type identifier"⟩
  | .list i _ => .error ⟨pname, i, "expected a type, got a list"⟩

/-- Interpret a parsed list as a list of plain strings. -/
def stringItems (pname : String) : List PValue → Except ParseError (List String)
  | [] => .ok []
  | .strLit _ s :: rest => (stringItems pname rest).map (s :: ·)
  | .ident i _ :: _ => .error ⟨pname, i, "expected a string"⟩
  | .list i _ :: _ => .error ⟨pname, i, "expected a string"⟩

/-- Interpret a parsed list as an ordered list of positional specs. -/
def argItems (pname : String) : List PValue → Except ParseError (List ArgType)
  | [] => .ok []
  | v :: rest =>
    match argTypeOfValue pname v, argItems pname rest with
    | .ok t, .ok ts => .ok (t :: ts)
    | .error e, _ => .error e
    | .ok _, .error e => .error e

/-- Accumulator for the fields of one program declaration. -/
structure ProgAcc where
  program : Option String := none
  flags : List String := []
  argSpecs : List ArgType := []
  system_path : List String := []

/-- Modelled from the spec: interpret one `key=value` pair of a program
declaration, rejecting malformed shapes and unknown keywords. The modelled
DSL subset covers the declaration forms visible in the repository's test
policies (`program`, `args`, `flags`, `system_path`). -/
def applyKwarg (pname : String) (acc : ProgAcc) :
    Nat × String × PValue → Except ParseError ProgAcc
  | (i, key, v) =>
    if key = "program" then
      match v with
      | .strLit _ s =>
        match acc.program with
        | none => .ok { acc with program := some s }
        | some _ => .error ⟨pname, i, "duplicate program keyword"⟩
      | _ => .error ⟨pname, i, "program must be a string"⟩
    else if key = "args" then
      match v with
      | .list _ items => (argItems pname items).map fun ts => { acc with argSpecs := ts }
      | _ => .error ⟨pname, i, "args must be a list"⟩
    else if key = "flags" then
      match v with
      | .list _ items => (stringItems pname items).map fun ss => { acc with flags := ss }
      | _ => .error ⟨pname, i, "flags must be a list"⟩
    else if key = "system_path" then
      match v with
      | .list _ items =>
        (stringItems pname items).map fun ss => { acc with system_path := ss }
      | _ => .error ⟨pname, i, "system_path must be a list"⟩
    else .error ⟨pname, i, "unknown keyword"⟩

/-- Build one `ProgramSpec` from the keyword arguments of a block. -/
def buildProgram (pname : String) (blockPos : Nat)
    (kws : List (Nat × String × PValue)) : Except ParseError ProgramSpec :=
  match kws.foldlM (applyKwarg pname) ({} : ProgAcc) with
  | .error e => .error e
  | .ok acc =>
    match acc.program with
    | some prog => .ok
        { program := prog
          flags := acc.flags
          options := []
          argSpecs := acc.argSpecs
          system_path := acc.system_path }
    | none => .error ⟨pname, blockPos, "missing program keyword"⟩

/-- Build the rule set from the parsed blocks, rejecting duplicate program
names. -/
def buildPolicy (pname : String) :
    List (Nat × List (Nat × String × PValue)) → List String →
    Except ParseError (List ProgramSpec)
  | [], _ => .ok []
  | (i, kws) :: rest, seen =>
    match buildProgram pname i kws with
    | .error e => .error e
    | .ok spec =>
      if seen.contains spec.program then
        .error ⟨pname, i, "duplicate program name"⟩
      else
        match buildPolicy pname rest (spec.program :: seen) with
        | .ok specs => .ok (spec :: specs)
        | .error e => .error e

/-- Modelled from the spec: `PolicyParser` holds a policy name used as a
diagnostics label and the unparsed source text. -/
structure PolicyParser where
  policyName : String
  source : String

/-- Mirrors `PolicyParser::new(name, text)` from the test suite. -/
def PolicyParser.new (policyName source : String) : PolicyParser :=
  ⟨policyName, source⟩

/-- Modelled from the spec (§4.1): `parse()` returns the constructed
`Policy` or a position-annotated parse error. -/
def PolicyParser.parse (p : PolicyParser) : Except ParseError Policy :=
  match tokenizeAux p.policyName (p.source.length + 1) p.source.data 0 with
  | .error e => .error e
  | .ok toks =>
    match parseBlocks p.policyName (toks.length + 1) toks with
    | .error e => .error e
    | .ok blocks =>
      match buildPolicy p.policyName blocks [] with
      | .ok specs => .ok ⟨specs⟩
      | .error e => .error e

/-- The policy source text from the crate's literal test
(`test_invalid_subcommand`). -/
def fakePolicyText : String :=
  "\ndefine_program(\n    program=\"fake_executable\",\n    args=[\"subcommand\", \"sub-subcommand\"],\n)\n"

/-- The rule the literal test's policy text declares: two literal
positionals, no flags, no options, empty `system_path` (synthetic test
policy). -/
def fakeRule : ProgramSpec :=
  { program := "fake_executable"
    flags := []
    options := []
    argSpecs := [.Literal "subcommand", .Literal "sub-subcommand"]
    system_path := [] }

/-- The policy built from `fakePolicyText`. -/
def fakePolicy : Policy := ⟨[fakeRule]⟩

/-- Projection of a check outcome to the (position, value) pairs of its
matched positionals, when it is a match. -/
def argPositions : Except Error MatchedExec → Option (List (Nat × String))
  | .ok (.Match exec) => some (exec.args.map fun a => (a.position, a.value))
  | .error _ => none

/-- Specification-side classifier, following the spec's words for step 2 of
the matcher: the non-flag/non-opt tokens of a call, each with its 0-based
index in the full argument vector — a token is a flag if it names a
declared flag, an option name consumes the next token as its value, and
every other token is positional. Stated separately from `scanTokens` (which
also validates and can reject) so that the matched `args` vector can be
compared against it. -/
def specPositionalTokens (rule : ProgramSpec) : List String → Nat → List (Nat × String)
  | [], _ => []
  | tok :: rest, i =>
    if rule.flags.contains tok then specPositionalTokens rule rest (i + 1)
    else
      match findOpt rule tok with
      | some _ => specPositionalTokens rule rest.tail (i + 2)
      | none => (i, tok) :: specPositionalTokens rule rest (i + 1)
termination_by ts _ => ts.length
decreasing_by
  all_goals simp only [List.length_tail, List.length_cons]
  all_goals omega

/-! ## Helper lemmas for the sed-safety analyzer -/

theorem splitComma_ne_nil (cs : List Char) : splitComma cs ≠ [] := by
  induction cs with
  | nil => simp [splitComma]
  | cons c cs ih =>
    unfold splitComma
    by_cases h : c = ','
    · simp [h]
    · simp only [h, if_false]
      cases hs : splitComma cs with
      | nil => simp
      | cons p ps => simp

theorem mem_splitComma {c : Char} :
    ∀ cs : List Char, c ∈ cs → c = ',' ∨ ∃ p ∈ splitComma cs, c ∈ p := by
  intro cs
  induction cs with
  | nil => intro h; cases h
  | cons d cs ih =>
    intro h
    by_cases hd : d = ','
    · rcases List.mem_cons.mp h with rfl | hmem
      · exact Or.inl hd
      · rcases ih hmem with h1 | ⟨p, hp, hcp⟩
        · exact Or.inl h1
        · refine Or.inr ⟨p, ?_, hcp⟩
          simp [splitComma, hd]
          exact Or.inr hp
    · cases hs : splitComma cs with
      | nil => exact absurd hs (splitComma_ne_nil cs)
      | cons p0 ps =>
        have hsplit : splitComma (d :: cs) = (d :: p0) :: ps := by
          simp [splitComma, hd, hs]
        rcases List.mem_cons.mp h with rfl | hmem
        · refine Or.inr ⟨c :: p0, ?_, List.mem_cons_self _ _⟩
          rw [hsplit]
          exact List.mem_cons_self _ _
        · rcases ih hmem with h1 | ⟨p, hp, hcp⟩
          · exact Or.inl h1
          · rw [hs] at hp
            rcases List.mem_cons.mp hp with rfl | hps
            · refine Or.inr ⟨d :: p, ?_, List.mem_cons_of_mem _ hcp⟩
              rw [hsplit]
              exact List.mem_cons_self _ _
            · refine Or.inr ⟨p, ?_, hcp⟩
              rw [hsplit]
              exact List.mem_cons_of_mem _ hps

theorem isAddrChunk_mem {cs : List Char} (h : isAddrChunk cs = true) {c : Char}
    (hc : c ∈ cs) : isSedDigit c = true := by
  unfold isAddrChunk at h
  rw [Bool.and_eq_true] at h
  exact List.all_eq_true.mp h.2 c hc

theorem isAddrRange_mem {cs : List Char} (h : isAddrRange cs = true) {c : Char}
    (hc : c ∈ cs) : c = ',' ∨ isSedDigit c = true := by
  rcases mem_splitComma cs hc with h1 | ⟨p, hp, hcp⟩
  · exact Or.inl h1
  · right
    unfold isAddrRange at h
    cases hs : splitComma cs with
    | nil => exact absurd hs (splitComma_ne_nil cs)
    | cons a rest =>
      rw [hs] at h hp
      cases rest with
      | nil =>
        simp only [List.mem_singleton] at hp
        subst hp
        rw [Bool.or_eq_true] at h
        rcases h with he | hchunk
        · rw [List.isEmpty_iff] at he
          subst he
          cases hcp
        · exact isAddrChunk_mem hchunk hcp
      | cons b rest2 =>
        cases rest2 with
        | nil =>
          rw [Bool.and_eq_true] at h
          rcases List.mem_cons.mp hp with rfl | hp2
          · exact isAddrChunk_mem h.1 hcp
          · simp only [List.mem_singleton] at hp2
            subst hp2
            exact isAddrChunk_mem h.2 hcp
        | cons d rest3 => cases h

theorem sedScriptSafe_mem {cs : List Char} (h : sedScriptSafe cs = true)
    {c : Char} (hc : c ∈ cs) :
    c = ',' ∨ isSedDigit c = true ∨ c = 'p' ∨ c = 'd' := by
  unfold sedScriptSafe at h
  cases hl : cs.getLast? with
  | none => rw [hl] at h; cases h
  | some v =>
    rw [hl] at h
    rw [Bool.and_eq_true] at h
    obtain ⟨hv, hr⟩ := h
    have hne : cs ≠ [] := by
      intro h0
      rw [h0] at hl
      cases hl
    have hvl : cs.getLast hne = v := by
      have := List.getLast?_eq_getLast cs hne
      rw [hl] at this
      exact (Option.some.inj this).symm
    have hcs : cs.dropLast ++ [v] = cs := by
      rw [← hvl]
      exact List.dropLast_append_getLast hne
    rw [← hcs] at hc
    rcases List.mem_append.mp hc with hdrop | hlast
    · rcases isAddrRange_mem hr hdrop with h1 | h2
      · exact Or.inl h1
      · exact Or.inr (Or.inl h2)
    · simp only [List.mem_singleton] at hlast
      subst hlast
      unfold isSafeVerb at hv
      rw [Bool.or_eq_true] at hv
      rcases hv with hp | hd
      · exact Or.inr (Or.inr (Or.inl (by exact_mod_cast beq_iff_eq.mp hp)))
      · exact Or.inr (Or.inr (Or.inr (by exact_mod_cast beq_iff_eq.mp hd)))

theorem isSedCommandSafe_false_of_mem_e {s : String} (h : 'e' ∈ s.data) :
    isSedCommandSafe s = false := by
  cases hb : isSedCommandSafe s with
  | false => rfl
  | true =>
    exfalso
    have hsafe : sedScriptSafe s.data = true := hb
    rcases sedScriptSafe_mem hsafe h with h1 | h2 | h3 | h4
    · exact absurd h1 (by decide)
    · exact absurd h2 (by decide)
    · exact absurd h3 (by decide)
    · exact absurd h4 (by decide)

/-! ## Helper lemmas for the command matcher -/

theorem scanTokens_ok_spec (rule : ProgramSpec) :
    ∀ (n : Nat) (ts : List String), ts.length ≤ n →
    ∀ (i : Nat) (fs : List MatchedFlag) (os : List MatchedOpt)
      (ps : List (Nat × String)),
    scanTokens rule ts i = .ok (fs, os, ps) →
      List.Sublist (fs.map MatchedFlag.name) ts ∧
      List.Sublist (os.flatMap fun o => [o.name, o.value]) ts ∧
      List.Sublist (ps.map Prod.snd) ts ∧
      (∀ q ∈ ps, i ≤ q.1 ∧ ts[q.1 - i]? = some q.2) ∧
      List.Pairwise (· < ·) (ps.map Prod.fst) := by
  intro n
  induction n with
  | zero =>
    intro ts hts i fs os ps h
    have hnil : ts = [] := List.eq_nil_of_length_eq_zero (Nat.le_zero.mp hts)
    subst hnil
    unfold scanTokens at h
    obtain ⟨rfl, rfl, rfl⟩ : fs = [] ∧ os = [] ∧ ps = [] := by
      simpa using h
    simp
  | succ n ih =>
    intro ts hts i fs os ps h
    cases ts with
    | nil =>
      unfold scanTokens at h
      obtain ⟨rfl, rfl, rfl⟩ : fs = [] ∧ os = [] ∧ ps = [] := by
        simpa using h
      simp
    | cons tok rest =>
      have hrest : rest.length ≤ n := by
        simpa using Nat.lt_succ_iff.mp (Nat.lt_of_lt_of_le (by simp) hts)
      unfold scanTokens at h
      by_cases hflag : rule.flags.contains tok
      · rw [if_pos hflag] at h
        cases hrec : scanTokens rule rest (i + 1) with
        | error e => rw [hrec] at h; cases h
        | ok triple =>
          obtain ⟨fs', os', ps'⟩ := triple
          rw [hrec] at h
          obtain ⟨rfl, rfl, rfl⟩ : ⟨tok⟩ :: fs' = fs ∧ os' = os ∧ ps' = ps := by
            simpa using h
          obtain ⟨h1, h2, h3, h4, h5⟩ := ih rest hrest (i + 1) fs' os' ps' hrec
          refine ⟨?_, h2.cons tok, h3.cons tok, ?_, h5⟩
          · simpa using h1.cons₂ tok
          · intro q hq
            obtain ⟨hge, hget⟩ := h4 q hq
            refine ⟨by omega, ?_⟩
            have : q.1 - i = (q.1 - (i + 1)) + 1 := by omega
            rw [this, List.getElem?_cons_succ]
            exact hget
      · rw [if_neg hflag] at h
        split at h
        next o hopt =>
          split at h
          next => cases h
          next v rest2 =>
            cases hval : checkValue o.argType v with
            | error e => rw [hval] at h; cases h
            | ok u =>
              rw [hval] at h
              cases hrec : scanTokens rule rest2 (i + 2) with
              | error e => rw [hrec] at h; cases h
              | ok triple =>
                obtain ⟨fs', os', ps'⟩ := triple
                rw [hrec] at h
                obtain ⟨rfl, rfl, rfl⟩ :
                    fs' = fs ∧ ⟨tok, v, o.argType⟩ :: os' = os ∧ ps' = ps := by
                  simpa using h
                have hrest2 : rest2.length ≤ n := by
                  simp at hts
                  omega
                obtain ⟨h1, h2, h3, h4, h5⟩ := ih rest2 hrest2 (i + 2) fs' os' ps' hrec
                refine ⟨(h1.cons v).cons tok, ?_, (h3.cons v).cons tok, ?_, h5⟩
                · simpa using (h2.cons₂ v).cons₂ tok
                · intro q hq
                  obtain ⟨hge, hget⟩ := h4 q hq
                  refine ⟨by omega, ?_⟩
                  have : q.1 - i = (q.1 - (i + 2)) + 1 + 1 := by omega
                  rw [this, List.getElem?_cons_succ, List.getElem?_cons_succ]
                  exact hget
        next hopt =>
          cases hrec : scanTokens rule rest (i + 1) with
          | error e => rw [hrec] at h; cases h
          | ok triple =>
            obtain ⟨fs', os', ps'⟩ := triple
            rw [hrec] at h
            obtain ⟨rfl, rfl, rfl⟩ :
                fs' = fs ∧ os' = os ∧ (i, tok) :: ps' = ps := by
              simpa using h
            obtain ⟨h1, h2, h3, h4, h5⟩ := ih rest hrest (i + 1) fs' os' ps' hrec
            refine ⟨h1.cons tok, h2.cons tok, ?_, ?_, ?_⟩
            · simpa using h3.cons₂ tok
            · intro q hq
              rcases List.mem_cons.mp hq with rfl | hq2
              · exact ⟨Nat.le_refl i, by simp⟩
              · obtain ⟨hge, hget⟩ := h4 q hq2
                refine ⟨by omega, ?_⟩
                have : q.1 - i = (q.1 - (i + 1)) + 1 := by omega
                rw [this, List.getElem?_cons_succ]
                exact hget
            · rw [List.map_cons, List.pairwise_cons]
              refine ⟨?_, h5⟩
              intro b hb
              rcases List.mem_map.mp hb with ⟨q, hq, rfl⟩
              have := (h4 q hq).1
              omega

theorem zipSpecs_eq :
    ∀ (specs : List ArgType) (ps : List (Nat × String)) (l : List MatchedArg),
    zipSpecs specs ps = some l →
      l.map MatchedArg.argType = specs ∧
      l.map (fun a => (a.position, a.value)) = ps := by
  intro specs
  induction specs with
  | nil =>
    intro ps l h
    cases ps with
    | nil =>
      obtain rfl : l = [] := by simpa [zipSpecs] using h.symm
      simp
    | cons q ps' => simp [zipSpecs] at h
  | cons ty specs ih =>
    intro ps l h
    cases ps with
    | nil => simp [zipSpecs] at h
    | cons q ps' =>
      obtain ⟨i, v⟩ := q
      unfold zipSpecs at h
      cases hz : zipSpecs specs ps' with
      | none => rw [hz] at h; cases h
      | some rest =>
        rw [hz] at h
        obtain rfl : l = ⟨i, ty, v⟩ :: rest := by simpa using h.symm
        obtain ⟨ha, hb⟩ := ih ps' rest hz
        simp [ha, hb]

theorem dropFillable_length (rule : ProgramSpec) :
    ∀ (k : Nat) (specs specs' : List ArgType),
    dropFillable rule k specs = some specs' → specs'.length + k = specs.length := by
  intro k
  induction k with
  | zero =>
    intro specs specs' h
    obtain rfl : specs' = specs := by simpa [dropFillable] using h.symm
    simp
  | succ k ih =>
    intro specs specs' h
    cases specs with
    | nil => simp [dropFillable] at h
    | cons ty specs =>
      unfold dropFillable at h
      by_cases hf : optFillable rule ty
      · rw [if_pos hf] at h
        have := ih specs specs' h
        simp
        omega
      · rw [if_neg hf] at h
        cases h

theorem scanTokens_ok_ps (rule : ProgramSpec) :
    ∀ (n : Nat) (ts : List String), ts.length ≤ n →
    ∀ (i : Nat) (fs : List MatchedFlag) (os : List MatchedOpt)
      (ps : List (Nat × String)),
    scanTokens rule ts i = .ok (fs, os, ps) →
    ps = specPositionalTokens rule ts i := by
  intro n
  induction n with
  | zero =>
    intro ts hts i fs os ps h
    have hnil : ts = [] := List.eq_nil_of_length_eq_zero (Nat.le_zero.mp hts)
    subst hnil
    obtain ⟨rfl, rfl, rfl⟩ : fs = [] ∧ os = [] ∧ ps = [] := by
      simpa [scanTokens] using h
    simp [specPositionalTokens]
  | succ n ih =>
    intro ts hts i fs os ps h
    cases ts with
    | nil =>
      obtain ⟨rfl, rfl, rfl⟩ : fs = [] ∧ os = [] ∧ ps = [] := by
        simpa [scanTokens] using h
      simp [specPositionalTokens]
    | cons tok rest =>
      have hrest : rest.length ≤ n := by
        simpa using Nat.lt_succ_iff.mp (Nat.lt_of_lt_of_le (by simp) hts)
      unfold scanTokens at h
      by_cases hflag : rule.flags.contains tok
      · rw [if_pos hflag] at h
        cases hrec : scanTokens rule rest (i + 1) with
        | error e => rw [hrec] at h; cases h
        | ok triple =>
          obtain ⟨fs', os', ps'⟩ := triple
          rw [hrec] at h
          obtain ⟨rfl, rfl, rfl⟩ : ⟨tok⟩ :: fs' = fs ∧ os' = os ∧ ps' = ps := by
            simpa using h
          have h6 := ih rest hrest (i + 1) fs' os' ps' hrec
          have hmem : tok ∈ rule.flags := by simpa using hflag
          have hsp : specPositionalTokens rule (tok :: rest) i =
              specPositionalTokens rule rest (i + 1) := by
            simp [specPositionalTokens, hmem]
          rw [hsp]
          exact h6
      · rw [if_neg hflag] at h
        have hmem : tok ∉ rule.flags := by simpa using hflag
        split at h
        next o hopt =>
          split at h
          next => cases h
          next v rest2 =>
            cases hval : checkValue o.argType v with
            | error e => rw [hval] at h; cases h
            | ok u =>
              rw [hval] at h
              cases hrec : scanTokens rule rest2 (i + 2) with
              | error e => rw [hrec] at h; cases h
              | ok triple =>
                obtain ⟨fs', os', ps'⟩ := triple
                rw [hrec] at h
                obtain ⟨rfl, rfl, rfl⟩ :
                    fs' = fs ∧ ⟨tok, v, o.argType⟩ :: os' = os ∧ ps' = ps := by
                  simpa using h
                have hrest2 : rest2.length ≤ n := by
                  simp at hts
                  omega
                have h6 := ih rest2 hrest2 (i + 2) fs' os' ps' hrec
                have hsp : specPositionalTokens rule (tok :: v :: rest2) i =
                    specPositionalTokens rule rest2 (i + 2) := by
                  simp [specPositionalTokens, hmem, hopt]
                rw [hsp]
                exact h6
        next hopt =>
          cases hrec : scanTokens rule rest (i + 1) with
          | error e => rw [hrec] at h; cases h
          | ok triple =>
            obtain ⟨fs', os', ps'⟩ := triple
            rw [hrec] at h
            obtain ⟨rfl, rfl, rfl⟩ :
                fs' = fs ∧ os' = os ∧ (i, tok) :: ps' = ps := by
              simpa using h
            have h6 := ih rest hrest (i + 1) fs' os' ps' hrec
            have hsp : specPositionalTokens rule (tok :: rest) i =
                (i, tok) :: specPositionalTokens rule rest (i + 1) := by
              simp [specPositionalTokens, hmem, hopt]
            rw [hsp, h6]

theorem dropFillable_spec (rule : ProgramSpec) :
    ∀ (k : Nat) (specs specs' : List ArgType),
    dropFillable rule k specs = some specs' →
    specs' = specs.drop k ∧ ∀ ty ∈ specs.take k, optFillable rule ty = true := by
  intro k
  induction k with
  | zero =>
    intro specs specs' h
    obtain rfl : specs' = specs := by simpa [dropFillable] using h.symm
    simp
  | succ k ih =>
    intro specs specs' h
    cases specs with
    | nil => simp [dropFillable] at h
    | cons ty specs =>
      unfold dropFillable at h
      by_cases hf : optFillable rule ty
      · rw [if_pos hf] at h
        obtain ⟨h1, h2⟩ := ih specs specs' h
        refine ⟨by simpa using h1, ?_⟩
        intro ty2 hty2
        simp only [List.take_succ_cons, List.mem_cons] at hty2
        rcases hty2 with rfl | hmem
        · exact hf
        · exact h2 ty2 hmem
      · rw [if_neg hf] at h
        cases h

theorem checkRule_ok_inv {rule : ProgramSpec} {call : ExecCall} {exec : ValidExec}
    (h : checkRule rule call = .ok (.Match exec)) :
    ∃ fs os ps specs,
      scanTokens rule call.args 0 = .ok (fs, os, ps) ∧
      dropFillable rule (rule.argSpecs.length - ps.length) rule.argSpecs = some specs ∧
      zipSpecs specs ps = some exec.args ∧
      exec.program = rule.program ∧ exec.flags = fs ∧ exec.opts = os ∧
      exec.system_path = rule.system_path := by
  unfold checkRule at h
  split at h
  next e hscan => cases h
  next fs os ps hscan =>
    split at h
    next hdrop => cases h
    next specs hdrop =>
      split at h
      next hzip => cases h
      next margs hzip =>
        split at h
        next e hargs => cases h
        next u hargs =>
          split at h
          next hmr =>
            obtain rfl :
                exec =
                  { program := rule.program, flags := fs, opts := os,
                    args := margs, system_path := rule.system_path } := by
              have := Except.ok.inj h
              exact (MatchedExec.Match.inj this).symm
            exact ⟨fs, os, ps, specs, hscan, hdrop, hzip, rfl, rfl, rfl, rfl⟩
          next m ms hmr => cases h

theorem check_ok_inv {pol : Policy} {call : ExecCall} {exec : ValidExec}
    (h : pol.check call = .ok (.Match exec)) :
    ∃ rule, pol.findRule call.program = some rule ∧
      checkRule rule call = .ok (.Match exec) := by
  unfold Policy.check at h
  cases hf : pol.findRule call.program with
  | none => rw [hf] at h; cases h
  | some rule =>
    rw [hf] at h
    exact ⟨rule, rfl, h⟩

/-! ## Claim theorems -/

/-- C1: the default policy's sed rule rejects the call
`(sed, ["-e", "s/y/echo hi/e", "hello.txt"])` with exactly
`SedCommandNotProvablySafe{command: "s/y/echo hi/e"}` and accepts
`"122,202p"` as a valid `SedCommand`; more generally, any script containing
the character of the `e` command, and any script the analyzer cannot
positively classify as safe, is rejected with `SedCommandNotProvablySafe`
carrying the offending script. -/
theorem C1_sed_safety :
    defaultPolicy.check (ExecCall.new "sed" ["-e", "s/y/echo hi/e", "hello.txt"]) =
      .error (.SedCommandNotProvablySafe "s/y/echo hi/e") ∧
    checkValue .SedCommand "122,202p" = .ok () ∧
    (∀ s : String, 'e' ∈ s.data →
      checkValue .SedCommand s = .error (.SedCommandNotProvablySafe s)) ∧
    (∀ s : String, isSedCommandSafe s = false →
      checkValue .SedCommand s = .error (.SedCommandNotProvablySafe s)) := by
  refine ⟨rfl, rfl, ?_, ?_⟩
  · intro s hs
    simp [checkValue, isSedCommandSafe_false_of_mem_e hs]
  · intro s hs
    simp [checkValue, hs]

/-- Witness for C1 at the concrete scripts of the test suite. -/
theorem C1_sed_safety_witness :
    ('e' ∈ ("s/y/echo hi/e" : String).data ∧
      checkValue .SedCommand "s/y/echo hi/e" =
        .error (.SedCommandNotProvablySafe "s/y/echo hi/e")) ∧
    (isSedCommandSafe "s/x/y/" = false ∧
      checkValue .SedCommand "s/x/y/" =
        .error (.SedCommandNotProvablySafe "s/x/y/")) :=
  ⟨⟨by decide, C1_sed_safety.2.2.1 "s/y/echo hi/e" (by decide)⟩,
   ⟨by decide, C1_sed_safety.2.2.2 "s/x/y/" (by decide)⟩⟩

/-- C2: `missingRequired` — the options list of a
`MissingRequiredOptions` rejection — contains every required option spec
that neither appeared as an option nor was satisfied by an equivalent
argument, not only the first; concretely, the default policy's check on
`(sed, ["122,202p"])` returns
`MissingRequiredOptions{program: "sed", options: ["-e"]}`. -/
theorem C2_missing_required_options_all :
    (∀ (rule : ProgramSpec) (os : List MatchedOpt) (l : List MatchedArg)
       (o : OptSpec),
      o ∈ rule.options → o.required = true → optSatisfied o os l = false →
      o.name ∈ missingRequired rule os l) ∧
    defaultPolicy.check (ExecCall.new "sed" ["122,202p"]) =
      .error (.MissingRequiredOptions "sed" ["-e"]) := by
  refine ⟨?_, rfl⟩
  intro rule os l o ho hreq hsat
  unfold missingRequired
  refine List.mem_map.mpr ⟨o, List.mem_filter.mpr ⟨ho, ?_⟩, rfl⟩
  rw [hreq, hsat]
  rfl

/-- Witness for C2 at the default sed rule with no matched options or
positionals. -/
theorem C2_missing_required_options_all_witness :
    (⟨"-e", .SedCommand, true⟩ : OptSpec) ∈ sedRule.options ∧
    optSatisfied ⟨"-e", .SedCommand, true⟩ [] [] = false ∧
    ("-e" : String) ∈ missingRequired sedRule [] [] :=
  ⟨by decide, by decide,
   C2_missing_required_options_all.1 sedRule [] [] ⟨"-e", .SedCommand, true⟩
     (by decide) rfl (by decide)⟩

/-- C3: the default policy's check on
`(sed, ["-n", "122,202p", "hello.txt"])` returns `Match(ValidExec)` whose
flags are exactly `-n`, whose args are exactly the `SedCommand` positional
`"122,202p"` followed by the `ReadableFile` positional `"hello.txt"`, and
whose `system_path` carries the binary location resolved at policy-load
time. -/
theorem C3_sed_print_specific_lines :
    defaultPolicy.check (ExecCall.new "sed" ["-n", "122,202p", "hello.txt"]) =
      .ok (.Match
        { program := "sed"
          flags := [⟨"-n"⟩]
          opts := []
          args := [⟨1, .SedCommand, "122,202p"⟩, ⟨2, .ReadableFile, "hello.txt"⟩]
          system_path := ["/usr/bin/sed"] }) := rfl

/-- C4: a `Literal` positional requires exact, case-sensitive string
equality, rejecting mismatches with `LiteralValueDidNotMatch{expected,
actual}` echoing both strings, never a generic type mismatch; concretely,
the two-literal rule of the literal test matches
`["subcommand", "sub-subcommand"]` and rejects
`["subcommand", "not-a-real-subcommand"]` with that exact diagnostic. -/
theorem C4_literal_exact_match :
    (∀ expected actual : String, actual ≠ expected →
      checkValue (.Literal expected) actual =
        .error (.LiteralValueDidNotMatch expected actual)) ∧
    (∀ s : String, checkValue (.Literal s) s = .ok ()) ∧
    fakePolicy.check (ExecCall.new "fake_executable" ["subcommand", "sub-subcommand"]) =
      .ok (.Match (ValidExec.new "fake_executable"
        [⟨0, .Literal "subcommand", "subcommand"⟩,
         ⟨1, .Literal "sub-subcommand", "sub-subcommand"⟩] [])) ∧
    fakePolicy.check (ExecCall.new "fake_executable" ["subcommand", "not-a-real-subcommand"]) =
      .error (.LiteralValueDidNotMatch "sub-subcommand" "not-a-real-subcommand") := by
  refine ⟨?_, ?_, rfl, rfl⟩
  · intro expected actual hne
    simp [checkValue, hne]
  · intro s
    simp [checkValue]

/-- Witness for C4 at the strings of the literal test. -/
theorem C4_literal_exact_match_witness :
    ("not-a-real-subcommand" : String) ≠ "sub-subcommand" ∧
    checkValue (.Literal "sub-subcommand") "not-a-real-subcommand" =
      .error (.LiteralValueDidNotMatch "sub-subcommand" "not-a-real-subcommand") :=
  ⟨by decide,
   C4_literal_exact_match.1 "sub-subcommand" "not-a-real-subcommand" (by decide)⟩

/-- C5: in every accepted call, the `flags`, `opts` and `args` vectors of
the resulting `ValidExec` list the matched tokens as ordered subsequences
of the call's argument vector — left-to-right call order, independent of
the order in which the rule declared them. -/
theorem C5_call_order_preserved :
    ∀ (pol : Policy) (call : ExecCall) (exec : ValidExec),
      pol.check call = .ok (.Match exec) →
      List.Sublist (exec.flags.map MatchedFlag.name) call.args ∧
      List.Sublist (exec.opts.flatMap fun o => [o.name, o.value]) call.args ∧
      List.Sublist (exec.args.map MatchedArg.value) call.args := by
  intro pol call exec h
  obtain ⟨rule, hfind, hrule⟩ := check_ok_inv h
  obtain ⟨fs, os, ps, specs, hscan, hdrop, hzip, hprog, hflags, hopts, hpath⟩ :=
    checkRule_ok_inv hrule
  obtain ⟨h1, h2, h3, h4, h5⟩ :=
    scanTokens_ok_spec rule call.args.length call.args (Nat.le_refl _) 0 fs os ps hscan
  obtain ⟨hty, hpv⟩ := zipSpecs_eq specs ps exec.args hzip
  refine ⟨?_, ?_, ?_⟩
  · rw [hflags]; exact h1
  · rw [hopts]; exact h2
  · have hv : exec.args.map MatchedArg.value = ps.map Prod.snd := by
      have := congrArg (List.map Prod.snd) hpv
      simpa [List.map_map, Function.comp] using this
    rw [hv]; exact h3

/-- Witness for C5 at the sed test call `sed -n 122,202p hello.txt`. -/
theorem C5_call_order_preserved_witness :
    defaultPolicy.check (ExecCall.new "sed" ["-n", "122,202p", "hello.txt"]) =
      .ok (.Match (ValidExec.mk "sed" [⟨"-n"⟩] []
        [⟨1, .SedCommand, "122,202p"⟩, ⟨2, .ReadableFile, "hello.txt"⟩]
        ["/usr/bin/sed"])) ∧
    (List.Sublist
        ((ValidExec.mk "sed" [⟨"-n"⟩] []
          [⟨1, .SedCommand, "122,202p"⟩, ⟨2, .ReadableFile, "hello.txt"⟩]
          ["/usr/bin/sed"]).flags.map MatchedFlag.name)
        ["-n", "122,202p", "hello.txt"] ∧
      List.Sublist
        ((ValidExec.mk "sed" [⟨"-n"⟩] []
          [⟨1, .SedCommand, "122,202p"⟩, ⟨2, .ReadableFile, "hello.txt"⟩]
          ["/usr/bin/sed"]).opts.flatMap fun o => [o.name, o.value])
        ["-n", "122,202p", "hello.txt"] ∧
      List.Sublist
        ((ValidExec.mk "sed" [⟨"-n"⟩] []
          [⟨1, .SedCommand, "122,202p"⟩, ⟨2, .ReadableFile, "hello.txt"⟩]
          ["/usr/bin/sed"]).args.map MatchedArg.value)
        ["-n", "122,202p", "hello.txt"]) :=
  ⟨rfl, C5_call_order_preserved defaultPolicy
    (ExecCall.new "sed" ["-n", "122,202p", "hello.txt"]) _ rfl⟩

/-- C6 (amended): in every successful match the `MatchedArg` positions
strictly increase, and the matched `(position, value)` pairs are, in
original order, exactly the non-flag/non-opt tokens of the call with
their 0-based indices in the full argument vector (so each position
indexes its own token in the call). The matched positional types are the
suffix of the rule's declared positional-spec list obtained by dropping
one leading spec per missing positional token, and every dropped spec is
one the rule declares an option of the same type for (whether or not
that option was supplied): the i-th positional token is checked against
the i-th spec of that suffix — when the positional token count equals
the declared spec count, nothing is dropped and it is the i-th declared
spec. -/
theorem C6_positions_correspondence :
    ∀ (pol : Policy) (call : ExecCall) (exec : ValidExec) (rule : ProgramSpec),
      pol.check call = .ok (.Match exec) →
      pol.findRule call.program = some rule →
      List.Pairwise (· < ·) (exec.args.map MatchedArg.position) ∧
      (∀ a ∈ exec.args, call.args[a.position]? = some a.value) ∧
      exec.args.map (fun a => (a.position, a.value)) =
        specPositionalTokens rule call.args 0 ∧
      exec.args.map MatchedArg.argType =
        rule.argSpecs.drop (rule.argSpecs.length - exec.args.length) ∧
      (∀ ty ∈ rule.argSpecs.take (rule.argSpecs.length - exec.args.length),
        optFillable rule ty = true) := by
  intro pol call exec rule h hfr
  obtain ⟨rule0, hfind, hrule⟩ := check_ok_inv h
  rw [hfind] at hfr
  obtain rfl : rule0 = rule := Option.some.inj hfr
  obtain ⟨fs, os, ps, specs, hscan, hdrop, hzip, _, _, _, _⟩ :=
    checkRule_ok_inv hrule
  obtain ⟨h1, h2, h3, h4, h5⟩ :=
    scanTokens_ok_spec rule0 call.args.length call.args (Nat.le_refl _) 0 fs os ps hscan
  have hps := scanTokens_ok_ps rule0 call.args.length call.args (Nat.le_refl _) 0 fs os ps hscan
  obtain ⟨hty, hpv⟩ := zipSpecs_eq specs ps exec.args hzip
  obtain ⟨hspec, hfill⟩ := dropFillable_spec rule0 _ _ _ hdrop
  have hlen2 : exec.args.length = ps.length := by
    rw [← hpv]
    simp
  refine ⟨?_, ?_, ?_, ?_, ?_⟩
  · have hpos : exec.args.map MatchedArg.position = ps.map Prod.fst := by
      have := congrArg (List.map Prod.fst) hpv
      simpa [List.map_map, Function.comp] using this
    rw [hpos]; exact h5
  · intro a ha
    have hmem : (a.position, a.value) ∈ ps := by
      rw [← hpv]
      exact List.mem_map_of_mem _ ha
    have := (h4 (a.position, a.value) hmem).2
    simpa using this
  · rw [hpv, hps]
  · rw [hty, hspec, hlen2]
  · rw [hlen2]
    exact hfill

/-- Witness for C6 at the with-`-e` sed test call — the case where a
spec is skipped: the single positional token `hello.txt` is the call's
only non-flag/non-opt token (index 3) and is checked against the suffix
of the spec list past the option-fillable `SedCommand` spec. -/
theorem C6_positions_correspondence_witness :
    defaultPolicy.check (ExecCall.new "sed" ["-n", "-e", "122,202p", "hello.txt"]) =
      .ok (.Match (ValidExec.mk "sed" [⟨"-n"⟩] [⟨"-e", "122,202p", .SedCommand⟩]
        [⟨3, .ReadableFile, "hello.txt"⟩] ["/usr/bin/sed"])) ∧
    defaultPolicy.findRule
        (ExecCall.new "sed" ["-n", "-e", "122,202p", "hello.txt"]).program =
      some sedRule ∧
    ((ValidExec.mk "sed" [⟨"-n"⟩] [⟨"-e", "122,202p", .SedCommand⟩]
        [⟨3, .ReadableFile, "hello.txt"⟩] ["/usr/bin/sed"]).args.map
        (fun a => (a.position, a.value)) =
      specPositionalTokens sedRule ["-n", "-e", "122,202p", "hello.txt"] 0) ∧
    ((ValidExec.mk "sed" [⟨"-n"⟩] [⟨"-e", "122,202p", .SedCommand⟩]
        [⟨3, .ReadableFile, "hello.txt"⟩] ["/usr/bin/sed"]).args.map
        MatchedArg.argType =
      sedRule.argSpecs.drop 1) :=
  ⟨rfl, rfl,
   (C6_positions_correspondence defaultPolicy
     (ExecCall.new "sed" ["-n", "-e", "122,202p", "hello.txt"]) _ sedRule
     rfl rfl).2.2.1,
   (C6_positions_correspondence defaultPolicy
     (ExecCall.new "sed" ["-n", "-e", "122,202p", "hello.txt"]) _ sedRule
     rfl rfl).2.2.2.1⟩

/-- C6 counterexample to the literal strict-index reading: in the accepted
call `sed -n -e 122,202p hello.txt`, the 0th non-flag/non-opt token
(`"hello.txt"`) is matched as a `ReadableFile`, yet the 0th positional
spec of the sed rule is `SedCommand` — the matched types are not a prefix
of the declared spec list. -/
theorem C6_strict_index_counterexample :
    defaultPolicy.check (ExecCall.new "sed" ["-n", "-e", "122,202p", "hello.txt"]) =
      .ok (.Match
        { program := "sed"
          flags := [⟨"-n"⟩]
          opts := [⟨"-e", "122,202p", .SedCommand⟩]
          args := [⟨3, .ReadableFile, "hello.txt"⟩]
          system_path := ["/usr/bin/sed"] }) ∧
    ([(⟨3, .ReadableFile, "hello.txt"⟩ : MatchedArg)].map MatchedArg.argType ≠
      sedRule.argSpecs.take 1) :=
  ⟨rfl, by decide⟩

/-- C7: both public operations are total typed functions in this model —
`Policy.check` always returns a `Match` or a typed rejection, and
`PolicyParser.parse` always returns a `Policy` or a position-annotated
parse error; the embedded default policy loads successfully. -/
theorem C7_total_no_panic :
    (∀ (pol : Policy) (call : ExecCall),
      (∃ m, pol.check call = .ok m) ∨ (∃ e, pol.check call = .error e)) ∧
    (∀ p : PolicyParser,
      (∃ pol, p.parse = .ok pol) ∨ (∃ e, p.parse = .error e)) ∧
    get_default_policy = .ok defaultPolicy := by
  refine ⟨?_, ?_, rfl⟩
  · intro pol call
    cases h : pol.check call with
    | ok m => exact Or.inl ⟨m, rfl⟩
    | error e => exact Or.inr ⟨e, rfl⟩
  · intro p
    cases h : p.parse with
    | ok pol => exact Or.inl ⟨pol, rfl⟩
    | error e => exact Or.inr ⟨e, rfl⟩

/-- C8: parsing and checking are deterministic, pure functions of their
inputs — parsing the same policy text twice yields the same rule set, a
check applied twice to the same policy and call yields the same verdict,
and the literal test's policy text parses to exactly its declared rule
set. -/
theorem C8_deterministic :
    (∀ policyName text : String,
      (PolicyParser.new policyName text).parse =
        (PolicyParser.new policyName text).parse) ∧
    (∀ (pol : Policy) (call : ExecCall), pol.check call = pol.check call) ∧
    (PolicyParser.new "test_invalid_subcommand" fakePolicyText).parse =
      .ok fakePolicy :=
  ⟨fun _ _ => rfl, fun _ _ => rfl, rfl⟩

/-- C9: a `MatchedArg` position is the token's index in the call's full
argument vector, counting flag and option tokens: `"hello.txt"` is at
position 2 in `["-n", "122,202p", "hello.txt"]` but at position 3 in
`["-n", "-e", "122,202p", "hello.txt"]`. -/
theorem C9_positions_count_all_tokens :
    argPositions (defaultPolicy.check
        (ExecCall.new "sed" ["-n", "122,202p", "hello.txt"])) =
      some [(1, "122,202p"), (2, "hello.txt")] ∧
    argPositions (defaultPolicy.check
        (ExecCall.new "sed" ["-n", "-e", "122,202p", "hello.txt"])) =
      some [(3, "hello.txt")] :=
  ⟨rfl, rfl⟩

/-- C10: supplying the sed script through `-e` records it in `opts` as
`MatchedOpt("-e", "122,202p", SedCommand)` with only the `ReadableFile`
positional in `args`, while supplying it positionally records it as a
`SedCommand` positional in `args`; both forms validate the script against
the sed-safety analyzer, rejecting an unsafe script either way. -/
theorem C10_sed_script_via_option_or_positional :
    defaultPolicy.check (ExecCall.new "sed" ["-n", "-e", "122,202p", "hello.txt"]) =
      .ok (.Match
        { program := "sed"
          flags := [⟨"-n"⟩]
          opts := [⟨"-e", "122,202p", .SedCommand⟩]
          args := [⟨3, .ReadableFile, "hello.txt"⟩]
          system_path := ["/usr/bin/sed"] }) ∧
    defaultPolicy.check (ExecCall.new "sed" ["-n", "122,202p", "hello.txt"]) =
      .ok (.Match
        { program := "sed"
          flags := [⟨"-n"⟩]
          opts := []
          args := [⟨1, .SedCommand, "122,202p"⟩, ⟨2, .ReadableFile, "hello.txt"⟩]
          system_path := ["/usr/bin/sed"] }) ∧
    defaultPolicy.check (ExecCall.new "sed" ["-n", "-e", "s/y/echo hi/e", "hello.txt"]) =
      .error (.SedCommandNotProvablySafe "s/y/echo hi/e") ∧
    defaultPolicy.check (ExecCall.new "sed" ["-n", "s/y/echo hi/e", "hello.txt"]) =
      .error (.SedCommandNotProvablySafe "s/y/echo hi/e") :=
  ⟨rfl, rfl, rfl, rfl⟩

end ExecPolicy
